import Mathlib

/-!
Verification of the KR-code decoder (`readkr.py`): the recursive tree
parser `descent`, the 3-state decorator scanner, the constituent parser
`analyzeConstituent` with its round-trip self-check, the canonical
renderer, and the dictionary builder `node_dictionary` /
`fill_def_values` / `kr_to_dictionary`.

Strings are modelled as `List Char` (Python strings are sequences of
code points, indexed and sliced by code point).  Python exceptions are
modelled by `Except KRErr`; lines written to standard error are
collected in a `List String` paired with each result.  The error
taxonomy follows the specification: bare `assert` failures and the
free-form `raise` sites of the source are mapped to the typed errors
they stand for.
-/

/-- Typed error taxonomy for decode failures. -/
inductive KRErr : Type where
  | grammarViolation : KRErr
  | missingDerivationMarker : KRErr
  | roundTripMismatch : KRErr
  | parserInvariant : KRErr
  | outOfFuel : KRErr
deriving DecidableEq

/-- Tree node: `value` plus ordered children, one `<...>` level
(`class Node`). -/
inductive Node : Type where
  | mk : List Char → List Node → Node

/-- The `value` field of a `Node`. -/
def Node.value : Node → List Char
  | .mk v _ => v

/-- The `children` field of a `Node`. -/
def Node.children : Node → List Node
  | .mk _ cs => cs

mutual

/-- Boolean equality on `Node`, used to build decidable equality. -/
def Node.beq : Node → Node → Bool
  | .mk v cs, .mk w ds => v == w && Node.beqList cs ds

/-- Boolean equality on lists of `Node`. -/
def Node.beqList : List Node → List Node → Bool
  | [], [] => true
  | c :: cs, d :: ds => Node.beq c d && Node.beqList cs ds
  | _, _ => false

end

mutual

/-- `Node.beq` decides equality. -/
theorem Node.beq_iff : ∀ (a b : Node), Node.beq a b = true ↔ a = b
  | .mk v cs, .mk w ds => by
    simp [Node.beq, Node.beqList_iff cs ds]

/-- `Node.beqList` decides equality of node lists. -/
theorem Node.beqList_iff : ∀ (as bs : List Node), Node.beqList as bs = true ↔ as = bs
  | [], [] => by simp [Node.beqList]
  | [], _ :: _ => by simp [Node.beqList]
  | _ :: _, [] => by simp [Node.beqList]
  | a :: as, b :: bs => by
    simp [Node.beqList, Node.beq_iff a b, Node.beqList_iff as bs]

end

instance : DecidableEq Node := fun a b =>
  decidable_of_iff (Node.beq a b = true) (Node.beq_iff a b)

mutual

/-- `Node.__str__`: value followed by each child rendered in `<...>`. -/
def Node.render : Node → List Char
  | .mk v cs => v ++ Node.renderList cs

/-- The `"".join(map(lambda p: "<" + str(p) + ">", children))` part of
`Node.__str__`. -/
def Node.renderList : List Node → List Char
  | [] => []
  | c :: cs => ('<' :: (Node.render c ++ ['>'])) ++ Node.renderList cs

end

/-- `class KRCode`: stripped stem, chain nodes (`krNodes`) and
decorator groups (`kepzos`). -/
structure KRCode : Type where
  stem : List Char
  krNodes : List Node
  kepzos : List (List Node)
deriving DecidableEq

/-- Body of `KRCode.__str__`: the loop over `range(n)` appending each
chain node, its decorator group when `i < len(kepzos)`, and a `/`
separator when `i < n-1`. -/
def KRCode.renderBody (k : KRCode) : List Char :=
  ((List.range k.krNodes.length).map (fun i =>
    (k.krNodes.getD i (.mk [] [])).render
    ++ (if i < k.kepzos.length then
          ((k.kepzos.getD i []).map (fun kz => '[' :: (kz.render ++ [']']))).flatten
        else [])
    ++ (if i < k.krNodes.length - 1 then ['/'] else []))).flatten

/-- `KRCode.__str__`: asserts `n - len(kepzos) in (0,1)` (Python integer
subtraction), then emits `stem + "/"` followed by the chain body.
`none` models the assertion failing. -/
def KRCode.render (k : KRCode) : Option (List Char) :=
  if (k.krNodes.length : Int) - (k.kepzos.length : Int) = 0 ∨
     (k.krNodes.length : Int) - (k.kepzos.length : Int) = 1 then
    some (k.stem ++ '/' :: k.renderBody)
  else none

/-- Python `str.find` restricted to a single character: index of the
first occurrence, `none` standing for `-1`. -/
def pyFind (x : Char) : List Char → Option Nat
  | [] => none
  | c :: rest => if c = x then some 0 else (pyFind x rest).map (· + 1)

/-- Python `str.split(sep)` for a one-character separator: empty parts
are kept, and the empty string splits to `[""]`. -/
def splitOnChar (sep : Char) : List Char → List (List Char)
  | [] => [[]]
  | c :: rest =>
    if c = sep then [] :: splitOnChar sep rest
    else
      match splitOnChar sep rest with
      | [] => [[c]]
      | part :: parts => (c :: part) :: parts

/-- Result of one `descent` call: fuel exhaustion, a raised exception,
or the filled node together with the next offset. -/
inductive DescentRes : Type where
  | timeout : DescentRes
  | err : KRErr → DescentRes
  | ok : Node → Nat → DescentRes
deriving DecidableEq

/-- `descent(code, pos, leaf)`, fuel-indexed.  On `<` the current value
must be non-empty (else GrammarViolation per the spec taxonomy), a
fresh child is parsed just past the `<` and appended; `>` returns
`pos+1`; otherwise the text up to the nearer of the next `<` / `>`
(found via `code[pos:].find`) becomes the value, which must not already
be set (else ParserInvariantViolation).  Reading past the end of the
code (Python `IndexError`) is likewise an internal fault. -/
def descent : Nat → List Char → Nat → Node → DescentRes
  | 0, _, _, _ => .timeout
  | fuel + 1, code, pos, leaf =>
    if pos = code.length then .ok leaf pos
    else
      match code[pos]? with
      | none => .err .parserInvariant
      | some c =>
        if c = '<' then
          if leaf.value = [] then .err .grammarViolation
          else
            match descent fuel code (pos + 1) (.mk [] []) with
            | .timeout => .timeout
            | .err e => .err e
            | .ok child p =>
              descent fuel code p (.mk leaf.value (leaf.children ++ [child]))
        else if c = '>' then .ok leaf (pos + 1)
        else
          let l := (pyFind '<' (code.drop pos)).getD (code.length - pos)
          let r := (pyFind '>' (code.drop pos)).getD (code.length - pos)
          let nextPos := pos + min l r
          if leaf.value = [] then
            descent fuel code nextPos (.mk ((code.drop pos).take (min l r)) leaf.children)
          else .err .parserInvariant

instance {ε α : Type} [DecidableEq ε] [DecidableEq α] : DecidableEq (Except ε α) := fun
  | .error e, .error f => decidable_of_iff (e = f) (by simp)
  | .error _, .ok _ => isFalse (by simp)
  | .ok _, .error _ => isFalse (by simp)
  | .ok a, .ok b => decidable_of_iff (a = b) (by simp)

/-- `analyzeKR(code)`: run `descent` from offset 0 on a fresh root with
ample fuel, require the returned offset to equal the length, and on any
failure write `Invalid KR: ...` to error output before re-raising. -/
def analyzeKR (code : List Char) : Except KRErr Node × List String :=
  match descent (code.length + 1) code 0 (.mk [] []) with
  | .timeout => (.error .outOfFuel, ["Invalid KR: " ++ String.mk code])
  | .err e => (.error e, ["Invalid KR: " ++ String.mk code])
  | .ok root pos =>
    if pos = code.length then (.ok root, [])
    else (.error .grammarViolation, ["Invalid KR: " ++ String.mk code])

/-- The three scanner states of the hand-written automaton
(`(START,OUT,IN) = (0,1,2)`). -/
inductive SState : Type where
  | START : SState
  | OUT : SState
  | IN : SState
deriving DecidableEq

/-- Characters accepted inside a decorator bracket: `A`-`Z`, `0`-`9`,
underscore, hyphen, `<` and `>` (the `ok` checks of the IN state). -/
def kepzoCharOk (c : Char) : Bool :=
  ('A' ≤ c && c ≤ 'Z') || ('0' ≤ c && c ≤ '9') || c = '_' || c = '-' || c = '<' || c = '>'

/-- The `while pos<len(part)` scanner of `analyzeConstituent`: walks the
whole chain-position token.  START skips text (but `]` is a grammar
violation), `[` opens a bracket; IN accumulates `kepzoCharOk`
characters into the buffer, `]` hands the buffer to `analyzeKR` and
appends the node to the group, `[` or any other character fails; OUT
accepts only `[`.  Running out of characters while IN (the trailing
`assert state!=IN`) is a grammar violation. -/
def scanKepzos : List Char → SState → List Char → List Node → Except KRErr (List Node) × List String
  | [], state, _, group =>
    if state = .IN then (.error .grammarViolation, []) else (.ok group, [])
  | c :: rest, .START, buf, group =>
    if c = ']' then (.error .grammarViolation, [])
    else if c = '[' then scanKepzos rest .IN [] group
    else scanKepzos rest .START buf group
  | c :: rest, .IN, buf, group =>
    if c = '[' then (.error .grammarViolation, [])
    else if c = ']' then
      match analyzeKR buf with
      | (.error e, log) => (.error e, log)
      | (.ok parsedKepzo, log) =>
        match scanKepzos rest .OUT [] (group ++ [parsedKepzo]) with
        | (res, log2) => (res, log ++ log2)
    else if kepzoCharOk c then scanKepzos rest .IN (buf ++ [c]) group
    else (.error .grammarViolation, [])
  | c :: rest, .OUT, buf, group =>
    if c = '[' then scanKepzos rest .IN buf group
    else (.error .grammarViolation, [])

/-- Inner part of the per-position handling once the offset `p` of the
first `[` (or the length, when absent at the last position) is known:
reject an empty main KR part away from position 0 (with its diagnostic
line), parse `part[:p]` with `analyzeKR`, then run the decorator
scanner over the whole part. -/
def processPartAt (i p : Nat) (part : List Char) : Except KRErr (Node × List Node) × List String :=
  if p = 0 ∧ i ≠ 0 then
    (.error .grammarViolation,
     ["SUBCATEGORIZATION (empty main category) IS ONLY ALLOWED AT THE FIRST POSITION: "
       ++ String.mk part])
  else
    match analyzeKR (part.take p) with
    | (.error e, log) => (.error e, log)
    | (.ok krNode, log) =>
      match scanKepzos part .START [] [] with
      | (.error e, log2) => (.error e, log ++ log2)
      | (.ok kepzoGroup, log2) => (.ok (krNode, kepzoGroup), log ++ log2)

/-- One iteration of the `for i,part in enumerate(tkr[1:])` loop: a
position other than the last must contain a `[` (else the
`MISSING KEPZO` diagnostic is written and the decode fails with
MissingDerivationMarker); at the last position a missing `[` means the
whole part is the main KR part. -/
def processPart (i lastIdx : Nat) (part : List Char) : Except KRErr (Node × List Node) × List String :=
  match pyFind '[' part with
  | none =>
    if i ≠ lastIdx then
      (.error .missingDerivationMarker, ["MISSING KEPZO: " ++ String.mk part])
    else processPartAt i part.length part
  | some p => processPartAt i p part

/-- The whole position loop: runs `processPart` on each chain position
in order, collecting the chain nodes and the non-empty decorator
groups; the first failure aborts. -/
def processParts (lastIdx : Nat) : Nat → List (List Char) → Except KRErr (List Node × List (List Node)) × List String
  | _, [] => (.ok ([], []), [])
  | i, part :: rest =>
    match processPart i lastIdx part with
    | (.error e, log) => (.error e, log)
    | (.ok (krNode, kepzoGroup), log) =>
      match processParts lastIdx (i + 1) rest with
      | (.error e, log2) => (.error e, log ++ log2)
      | (.ok (nodes, groups), log2) =>
        (.ok (krNode :: nodes, (if kepzoGroup ≠ [] then [kepzoGroup] else []) ++ groups),
         log ++ log2)

/-- Stem handling of `analyzeConstituent`: the stem may contain none of
`<`, `>`, `[`, `]`; if it ends with `}` it must contain a `{` with no
`}` before it, and the text from the `{` on (the ambiguity marker) is
stripped; otherwise it must contain no `{`. -/
def stemPhase (stem : List Char) : Except KRErr (List Char) :=
  if stem.contains '<' then .error .grammarViolation
  else if stem.contains '>' then .error .grammarViolation
  else if stem.contains '[' then .error .grammarViolation
  else if stem.contains ']' then .error .grammarViolation
  else
    match pyFind '{' stem with
    | some p =>
      if stem.getLast? = some '}' then
        if (stem.take p).contains '}' then .error .grammarViolation
        else .ok (stem.take p)
      else .error .grammarViolation
    | none =>
      if stem.getLast? = some '}' then .error .grammarViolation
      else .ok stem

/-- `analyzeConstituent` up to (but not including) the final round-trip
check: split on `/`, run the stem phase on the first segment and the
position loop on the rest, and assemble the `KRCode`. -/
def analyzeConstituentCore (w : List Char) : Except KRErr KRCode × List String :=
  match stemPhase ((splitOnChar '/' w).headD []) with
  | .error e => (.error e, [])
  | .ok realStem =>
    match processParts ((splitOnChar '/' w).tail.length - 1) 0 (splitOnChar '/' w).tail with
    | (.error e, log) => (.error e, log)
    | (.ok (nodes, groups), log) => (.ok ⟨realStem, nodes, groups⟩, log)

/-- `analyzeConstituent(w)`: build the `KRCode`, then render it and
compare with the source token; a renderer assertion failure is an
internal fault, and any difference writes the mismatch line and raises
RoundTripMismatch (`raise "internal error"`). -/
def analyzeConstituent (w : List Char) : Except KRErr KRCode × List String :=
  match analyzeConstituentCore w with
  | (.error e, log) => (.error e, log)
  | (.ok krCode, log) =>
    match krCode.render with
    | none => (.error .parserInvariant, log)
    | some r =>
      if w ≠ r then
        (.error .roundTripMismatch, log ++ [String.mk w ++ " != " ++ String.mk r])
      else (.ok krCode, log)

/-- The `for compoundIndex,w in enumerate(compounds)` loop of
`analyze`. -/
def analyzeList : List (List Char) → Except KRErr (List KRCode) × List String
  | [] => (.ok [], [])
  | w :: ws =>
    match analyzeConstituent w with
    | (.error e, log) => (.error e, log)
    | (.ok kr, log) =>
      match analyzeList ws with
      | (.error e, log2) => (.error e, log ++ log2)
      | (.ok krs, log2) => (.ok (kr :: krs), log ++ log2)

/-- `analyze(t)`: split on `+` and parse each constituent in order. -/
def analyze (t : List Char) : Except KRErr (List KRCode) × List String :=
  analyzeList (splitOnChar '+' t)

/-- Attribute values: a string, the integer presence flag `1`, or a
nested dictionary (Python dictionaries are modelled as association
lists in insertion order; `dinsert` keeps the position of an existing
key exactly as Python in-place update does). -/
inductive AttrVal : Type where
  | str : String → AttrVal
  | num : Nat → AttrVal
  | dict : List (String × AttrVal) → AttrVal

mutual

/-- Boolean equality on `AttrVal`. -/
def AttrVal.beq : AttrVal → AttrVal → Bool
  | .str a, .str b => a == b
  | .num a, .num b => a == b
  | .dict a, .dict b => AttrVal.beqDict a b
  | _, _ => false

/-- Boolean equality on attribute dictionaries. -/
def AttrVal.beqDict : List (String × AttrVal) → List (String × AttrVal) → Bool
  | [], [] => true
  | (k, v) :: rest, (k2, v2) :: rest2 =>
    k == k2 && AttrVal.beq v v2 && AttrVal.beqDict rest rest2
  | _, _ => false

end

mutual

/-- `AttrVal.beq` decides equality. -/
theorem AttrVal.beq_spec : ∀ (a b : AttrVal), AttrVal.beq a b = true ↔ a = b
  | .str _, .str _ => by simp [AttrVal.beq]
  | .str _, .num _ => by simp [AttrVal.beq]
  | .str _, .dict _ => by simp [AttrVal.beq]
  | .num _, .str _ => by simp [AttrVal.beq]
  | .num _, .num _ => by simp [AttrVal.beq]
  | .num _, .dict _ => by simp [AttrVal.beq]
  | .dict _, .str _ => by simp [AttrVal.beq]
  | .dict _, .num _ => by simp [AttrVal.beq]
  | .dict a, .dict b => by simp [AttrVal.beq, AttrVal.beqDict_iff a b]

/-- `AttrVal.beqDict` decides equality. -/
theorem AttrVal.beqDict_iff :
    ∀ (as bs : List (String × AttrVal)), AttrVal.beqDict as bs = true ↔ as = bs
  | [], [] => by simp [AttrVal.beqDict]
  | [], _ :: _ => by simp [AttrVal.beqDict]
  | _ :: _, [] => by simp [AttrVal.beqDict]
  | (k, v) :: rest, (k2, v2) :: rest2 => by
    simp [AttrVal.beqDict, AttrVal.beq_spec v v2, AttrVal.beqDict_iff rest rest2, and_assoc]

end

instance : DecidableEq AttrVal := fun a b =>
  decidable_of_iff (AttrVal.beq a b = true) (AttrVal.beq_spec a b)

/-- Dictionary lookup (`d[k]` / `k in d`): first entry with the key. -/
def dlookup : List (String × AttrVal) → String → Option AttrVal
  | [], _ => none
  | (k2, v) :: rest, k => if k2 = k then some v else dlookup rest k

/-- Dictionary update `d[k] = v`: replace in place when the key exists,
append otherwise (Python insertion-order semantics). -/
def dinsert : List (String × AttrVal) → String → AttrVal → List (String × AttrVal)
  | [], k, v => [(k, v)]
  | (k2, v2) :: rest, k, v =>
    if k2 = k then (k2, v) :: rest else (k2, v2) :: dinsert rest k v

/-- `if k not in d: d[k] = v` — one default assignment of
`fill_def_values`. -/
def addDefault (d : List (String × AttrVal)) (k : String) (v : AttrVal) :
    List (String × AttrVal) :=
  if dlookup d k = none then dinsert d k v else d

/-- The `CAT == 'NOUN'` default block of `fill_def_values`: five
defaults applied in source order. -/
def applyNounDefaults (catv : AttrVal) (d : List (String × AttrVal)) :
    List (String × AttrVal) :=
  if catv = .str "NOUN" then
    addDefault (addDefault (addDefault (addDefault (addDefault d "CAS" (.str "NOM"))
      "NUM" (.str "SING")) "ANP" (.str "0")) "DEF" (.str "0")) "POSS" (.str "0")
  else d

/-- The category-conditional default block of `fill_def_values`: the
`NOUN` block followed by the `CAT == 'ADJ'` default. -/
def applyCatDefaults (catv : AttrVal) (d : List (String × AttrVal)) :
    List (String × AttrVal) :=
  if catv = .str "ADJ" then addDefault (applyNounDefaults catv d) "CAS" (.str "NOM")
  else applyNounDefaults catv d

/-- A value found by `dlookup` is structurally smaller than the
dictionary holding it. -/
theorem sizeOf_dlookup : ∀ (d : List (String × AttrVal)) (k : String) (v : AttrVal),
    dlookup d k = some v → sizeOf v < sizeOf d := by
  intro d k v h
  induction d with
  | nil => simp [dlookup] at h
  | cons hd tl ih =>
    obtain ⟨k2, v2⟩ := hd
    simp [dlookup] at h
    by_cases hk : k2 = k
    · simp [hk] at h
      subst h
      simp
      omega
    · simp [hk] at h
      have := ih h
      simp
      omega

/-- `fill_def_values(dict_attributes)`: read `CAT` (`KeyError`, i.e.
`none`, when absent), apply the category defaults, and recurse through
`SRC.STEM`.  A present `SRC` whose value is not a dictionary holding a
dictionary under `STEM` is a Python `TypeError`/`KeyError`, i.e.
`none`.  The `SRC` entry is read before the defaults are applied; the
defaults never touch the `SRC` key, so this matches the source order. -/
def fill_def_values (d : List (String × AttrVal)) : Option (List (String × AttrVal)) :=
  match dlookup d "CAT" with
  | none => none
  | some catv =>
    match h2 : dlookup d "SRC" with
    | none => some (applyCatDefaults catv d)
    | some (.str _) => none
    | some (.num _) => none
    | some (.dict src) =>
      match h3 : dlookup src "STEM" with
      | none => none
      | some (.str _) => none
      | some (.num _) => none
      | some (.dict stem) =>
        match fill_def_values stem with
        | none => none
        | some stem2 =>
          some (dinsert (applyCatDefaults catv d) "SRC"
            (.dict (dinsert src "STEM" (.dict stem2))))
termination_by sizeOf d
decreasing_by
  have a1 := sizeOf_dlookup d "SRC" _ h2
  have a2 := sizeOf_dlookup src "STEM" _ h3
  simp at a1 a2
  omega

/-- The part of `node_dictionary` common to all positions: `CAT` from
the node value, then one attribute per direct child — the presence flag
`1` for a childless child, else the first grandchild's value — with the
`PLUR` child re-emitted as `NUM = "PLUR"`. -/
def node_dict_base (nodes : List Node) (i : Nat) : List (String × AttrVal) :=
  let node := nodes.getD i (.mk [] [])
  node.children.foldl (fun d ch =>
      let attr := String.mk ch.value
      let value : AttrVal :=
        if ch.children = [] then .num 1
        else .str (String.mk (ch.children.headD (.mk [] [])).value)
      if attr = "PLUR" then dinsert d "NUM" (.str "PLUR") else dinsert d attr value)
    (dinsert [] "CAT" (.str (String.mk node.value)))

/-- `node_dictionary(nodes, kepzos, i)`: the base attributes, and for
`i > 0` a `SRC` record with `DERIV.CAT` (and `DERIV.TYPE` when the
first decorator of position `i-1` has children) plus the recursive
`STEM` dictionary. -/
def node_dictionary (nodes : List Node) (kepzos : List (List Node)) : Nat → List (String × AttrVal)
  | 0 => node_dict_base nodes 0
  | j + 1 =>
    let kepzo := (kepzos.getD j []).getD 0 (.mk [] [])
    let deriv0 := dinsert [] "CAT" (.str (String.mk kepzo.value))
    let deriv :=
      if kepzo.children ≠ [] then
        dinsert deriv0 "TYPE" (.str (String.mk (kepzo.children.headD (.mk [] [])).value))
      else deriv0
    let src := dinsert (dinsert [] "DERIV" (.dict deriv)) "STEM"
      (.dict (node_dictionary nodes kepzos j))
    dinsert (node_dict_base nodes (j + 1)) "SRC" (.dict src)

/-- `kr_to_dictionary(kr_code)`: parse, take the first constituent,
build the dictionary from its last chain position, and fill the
category defaults. -/
def kr_to_dictionary (kr_code : List Char) : Option (List (String × AttrVal)) :=
  match (analyze kr_code).1 with
  | .error _ => none
  | .ok [] => none
  | .ok (code :: _) =>
    fill_def_values (node_dictionary code.krNodes code.kepzos (code.krNodes.length - 1))

example : (analyzeKR "IGE".toList).1 = .ok (.mk "IGE".toList []) := by decide
example : (analyzeKR "A<B>".toList).1 = .ok (.mk "A".toList [.mk "B".toList []]) := by decide
example : (analyzeKR "".toList).1 = .ok (.mk [] []) := by decide
example : (analyzeKR "A>B".toList).1 = .error .grammarViolation := by decide
example : Node.render (.mk "A".toList [.mk "B".toList []]) = "A<B>".toList := by decide
example : splitOnChar '/' "x/NOUN".toList = ["x".toList, "NOUN".toList] := by decide
example : splitOnChar '/' "a/".toList = ["a".toList, []] := by decide
example : splitOnChar '/' [] = [[]] := by decide
example : (analyzeConstituent "x/NOUN".toList).1 =
    .ok ⟨"x".toList, [.mk "NOUN".toList []], []⟩ := by decide
example : (analyzeConstituent "x/[NOUN]".toList).1 =
    .ok ⟨"x".toList, [.mk [] []], [[.mk "NOUN".toList []]]⟩ := by decide
example : analyzeConstituent "x/NOUN/NOUN<CAS<NOM>>".toList =
    (.error .missingDerivationMarker, ["MISSING KEPZO: NOUN"]) := by decide
example : (analyzeConstituent "alapszó/FN[IGE]/IGE<MOD<FELT>>".toList).1 =
    .ok ⟨"alapszó".toList,
         [.mk "FN".toList [], .mk "IGE".toList [.mk "MOD".toList [.mk "FELT".toList []]]],
         [[.mk "IGE".toList []]]⟩ := by decide
example : (analyzeConstituent "a\x7bX\x7d/NOUN".toList).1 = .error .roundTripMismatch := by
  decide
example : (analyzeConstituent "x".toList).1 = .error .roundTripMismatch := by decide
example : (analyzeConstituent "x/A/[B]/C".toList).1 = .error .missingDerivationMarker := by
  decide
example : (analyzeConstituent "x</A/B".toList).1 = .error .grammarViolation := by decide
example : node_dictionary [.mk "FN".toList [], .mk "IGE".toList [.mk "MOD".toList [.mk "FELT".toList []]]]
    [[.mk "IGE".toList []]] 1 =
    [("CAT", .str "IGE"), ("MOD", .str "FELT"),
     ("SRC", .dict [("DERIV", .dict [("CAT", .str "IGE")]),
                    ("STEM", .dict [("CAT", .str "FN")])])] := by decide
example : fill_def_values [("CAT", .str "NOUN")] =
    some [("CAT", .str "NOUN"), ("CAS", .str "NOM"), ("NUM", .str "SING"),
          ("ANP", .str "0"), ("DEF", .str "0"), ("POSS", .str "0")] := by
  simp [fill_def_values, dlookup, dinsert, applyCatDefaults, applyNounDefaults, addDefault]
example : kr_to_dictionary "alapszó/FN[IGE]/IGE<MOD<FELT>>".toList =
    some [("CAT", .str "IGE"), ("MOD", .str "FELT"),
     ("SRC", .dict [("DERIV", .dict [("CAT", .str "IGE")]),
                    ("STEM", .dict [("CAT", .str "FN")])])] := by
  have h : (analyze "alapszó/FN[IGE]/IGE<MOD<FELT>>".toList).1 =
      .ok [⟨"alapszó".toList,
            [.mk "FN".toList [], .mk "IGE".toList [.mk "MOD".toList [.mk "FELT".toList []]]],
            [[.mk "IGE".toList []]]⟩] := by decide
  rw [kr_to_dictionary, h]
  simp [fill_def_values, dlookup, dinsert, applyCatDefaults, applyNounDefaults, addDefault, node_dictionary,
    node_dict_base, Node.children, Node.value]

/-! ### Helper lemmas about `pyFind` and `splitOnChar` -/

theorem pyFind_lt {x : Char} : ∀ {l : List Char} {i : Nat}, pyFind x l = some i → i < l.length := by
  intro l
  induction l with
  | nil => intro i h; simp [pyFind] at h
  | cons c rest ih =>
    intro i h
    by_cases hc : c = x
    · simp [pyFind, hc] at h
      subst h
      simp
    · simp [pyFind, hc] at h
      obtain ⟨j, hj, rfl⟩ := h
      have := ih hj
      simp
      omega

theorem pyFind_getElem {x : Char} : ∀ {l : List Char} {i : Nat}, pyFind x l = some i → l[i]? = some x := by
  intro l
  induction l with
  | nil => intro i h; simp [pyFind] at h
  | cons c rest ih =>
    intro i h
    by_cases hc : c = x
    · simp [pyFind, hc] at h
      subst h
      simp [hc]
    · simp [pyFind, hc] at h
      obtain ⟨j, hj, rfl⟩ := h
      simpa using ih hj

theorem pyFind_none_iff (x : Char) : ∀ (l : List Char), pyFind x l = none ↔ l.contains x = false := by
  intro l
  induction l with
  | nil => simp [pyFind]
  | cons c rest ih =>
    by_cases hc : c = x
    · simp [pyFind, hc]
    · simp [pyFind, hc, ih, List.contains_cons]
      intro h
      exact fun habs => hc habs.symm

theorem pyFind_head_lb {x c : Char} {rest : List Char} {m : Nat} (hne : c ≠ x) (hm : 1 ≤ m) :
    1 ≤ (pyFind x (c :: rest)).getD m := by
  rw [pyFind]
  simp [hne]
  rcases pyFind x rest with _ | i <;> simp [Option.getD] <;> omega

theorem splitOnChar_ne_nil (sep : Char) : ∀ (l : List Char), splitOnChar sep l ≠ [] := by
  intro l
  induction l with
  | nil => simp [splitOnChar]
  | cons c rest ih =>
    rw [splitOnChar]
    by_cases hc : c = sep
    · simp [hc]
    · simp [hc]
      rcases splitOnChar sep rest with _ | ⟨part, parts⟩ <;> simp

theorem splitOnChar_head_prefix (sep : Char) :
    ∀ (w : List Char), ∃ rest, w = (splitOnChar sep w).headD [] ++ rest := by
  intro w
  induction w with
  | nil => exact ⟨[], by simp [splitOnChar]⟩
  | cons c tl ih =>
    rw [splitOnChar]
    by_cases hc : c = sep
    · exact ⟨c :: tl, by simp [hc]⟩
    · simp only [hc, if_false]
      obtain ⟨r0, hr0⟩ := ih
      rcases hs : splitOnChar sep tl with _ | ⟨part, parts⟩
      · exact absurd hs (splitOnChar_ne_nil sep tl)
      · refine ⟨r0, ?_⟩
        rw [hs] at hr0
        simp at hr0 ⊢
        exact hr0

/-! ### Termination of `descent` (claim C9) -/

theorem descent_ok_ge :
    ∀ (fuel : Nat) (code : List Char) (pos : Nat) (leaf n : Node) (p : Nat),
      descent fuel code pos leaf = .ok n p → pos ≤ p := by
  intro fuel
  induction fuel with
  | zero => intro code pos leaf n p h; simp [descent] at h
  | succ f ih =>
    intro code pos leaf n p h
    rw [descent] at h
    by_cases h0 : pos = code.length
    · simp [h0] at h
      omega
    · simp only [h0, if_false] at h
      rcases hg : code[pos]? with _ | c
      · rw [hg] at h; simp at h
      · rw [hg] at h
        by_cases hlt : c = '<'
        · simp only [hlt, if_true] at h
          by_cases hv : leaf.value = []
          · simp [hv] at h
          · simp only [hv, if_false, if_true] at h
            rcases hch : descent f code (pos + 1) (.mk [] []) with _ | e | ⟨child, p1⟩ <;>
              rw [hch] at h
            · simp at h
            · simp at h
            · have h1 := ih _ _ _ _ _ hch
              have h2 := ih _ _ _ _ _ h
              omega
        · by_cases hgt : c = '>'
          · simp [hlt, hgt] at h
            omega
          · simp only [hlt, hgt, if_false] at h
            by_cases hv : leaf.value = []
            · simp only [hv, if_true] at h
              have h2 := ih _ _ _ _ _ h
              omega
            · simp [hv] at h

theorem analyzeConstituent_ok (w : List Char) (kr : KRCode)
    (h : (analyzeConstituent w).1 = .ok kr) :
    (analyzeConstituentCore w).1 = .ok kr ∧ kr.render = some w := by
  unfold analyzeConstituent at h
  rcases hc : analyzeConstituentCore w with ⟨res, log⟩
  rw [hc] at h
  cases res with
  | error e => simp at h
  | ok kr2 =>
    dsimp only at h
    rcases hr : kr2.render with _ | r <;> rw [hr] at h
    · simp at h
    · by_cases hw : w = r
      · simp [hw] at h
        subst h
        exact ⟨by simp [hc], by rw [hr, hw]⟩
      · simp [hw] at h

theorem core_ok (w : List Char) (kr : KRCode)
    (h : (analyzeConstituentCore w).1 = .ok kr) :
    stemPhase ((splitOnChar '/' w).headD []) = .ok kr.stem ∧
    ∃ log, processParts ((splitOnChar '/' w).tail.length - 1) 0 ((splitOnChar '/' w).tail)
        = (.ok (kr.krNodes, kr.kepzos), log) := by
  unfold analyzeConstituentCore at h
  rcases hs : stemPhase ((splitOnChar '/' w).headD []) with e | realStem <;> rw [hs] at h
  · simp at h
  · rcases hp : processParts ((splitOnChar '/' w).tail.length - 1) 0 ((splitOnChar '/' w).tail)
        with ⟨res, log⟩
    rw [hp] at h
    cases res with
    | error e => simp at h
    | ok pair =>
      obtain ⟨nodes, groups⟩ := pair
      simp at h
      subst h
      refine ⟨?_, log, ?_⟩
      · simpa using hs
      · simpa using hp

theorem descent_no_timeout :
    ∀ (fuel : Nat) (code : List Char) (pos : Nat) (leaf : Node),
      code.length - pos + 1 ≤ fuel → descent fuel code pos leaf ≠ .timeout := by
  intro fuel
  induction fuel with
  | zero => intro code pos leaf hf; omega
  | succ f ih =>
    intro code pos leaf hf
    rw [descent]
    by_cases h0 : pos = code.length
    · simp [h0]
    · simp only [h0, if_false]
      rcases hg : code[pos]? with _ | c
      · simp
      · have hpos : pos < code.length := by
          by_contra hc
          rw [List.getElem?_eq_none (by omega)] at hg
          exact Option.noConfusion hg
        by_cases hlt : c = '<'
        · simp only [hlt, if_true]
          by_cases hv : leaf.value = []
          · simp [hv]
          · simp only [hv, if_false, if_true]
            rcases hch : descent f code (pos + 1) (.mk [] []) with _ | e | ⟨child, p1⟩
            · exact absurd hch (ih code (pos + 1) (.mk [] []) (by omega))
            · simp
            · have h1 := descent_ok_ge f code (pos + 1) _ _ _ hch
              exact ih code p1 _ (by omega)
        · by_cases hgt : c = '>'
          · simp [hlt, hgt]
          · simp only [hlt, hgt, if_false]
            have hdrop : code.drop pos = c :: code.drop (pos + 1) := by
              rw [List.drop_eq_getElem_cons hpos]
              rw [List.getElem?_eq_some] at hg
              simp [hg.2]
            have hl : 1 ≤ (pyFind '<' (code.drop pos)).getD (code.length - pos) := by
              rw [hdrop]
              exact pyFind_head_lb hlt (by omega)
            have hr : 1 ≤ (pyFind '>' (code.drop pos)).getD (code.length - pos) := by
              rw [hdrop]
              exact pyFind_head_lb hgt (by omega)
            by_cases hv : leaf.value = []
            · simp only [hv, if_true]
              apply ih
              omega
            · simp [hv]

theorem processParts_ok_all :
    ∀ (parts : List (List Char)) (lastIdx i : Nat) (nodes : List Node)
      (groups : List (List Node)) (log : List String),
      processParts lastIdx i parts = (.ok (nodes, groups), log) →
      ∀ (j : Nat) (part : List Char), parts[j]? = some part →
        ∃ ng lg, processPart (i + j) lastIdx part = (.ok ng, lg) := by
  intro parts
  induction parts with
  | nil =>
    intro lastIdx i nodes groups log h j part hj
    simp at hj
  | cons part0 rest ih =>
    intro lastIdx i nodes groups log h j part hj
    rw [processParts] at h
    rcases hp : processPart i lastIdx part0 with ⟨res0, log0⟩
    rw [hp] at h
    cases res0 with
    | error e => simp at h
    | ok ng0 =>
      dsimp only at h
      rcases hr : processParts lastIdx (i + 1) rest with ⟨res1, log1⟩
      rw [hr] at h
      cases res1 with
      | error e => simp at h
      | ok pr =>
        obtain ⟨n1, g1⟩ := pr
        cases j with
        | zero =>
          simp at hj
          subst hj
          exact ⟨ng0, log0, by simpa using hp⟩
        | succ j2 =>
          simp at hj
          have hrec := ih lastIdx (i + 1) n1 g1 log1 hr j2 part hj
          have harith : i + (j2 + 1) = (i + 1) + j2 := by omega
          rw [harith]
          exact hrec

/-! ### The claim theorems -/

/-- C9: the tree-parser descent terminates for every fragment and every
start offset not exceeding the fragment length (fuel equal to
length-minus-offset plus one suffices, because that quantity strictly
decreases across the recursion), and a successful `analyzeKR` run ends
with the returned offset equal to the fragment length. -/
theorem c9_descent_terminates (code : List Char) (pos : Nat) (leaf root : Node)
    (h : pos ≤ code.length) :
    descent (code.length - pos + 1) code pos leaf ≠ .timeout ∧
    ((analyzeKR code).1 = .ok root →
      descent (code.length + 1) code 0 (.mk [] []) = .ok root code.length) := by
  constructor
  · exact descent_no_timeout _ code pos leaf (by omega)
  · intro hA
    unfold analyzeKR at hA
    rcases hd : descent (code.length + 1) code 0 (.mk [] []) with _ | e | ⟨n, p⟩ <;>
      rw [hd] at hA
    · simp at hA
    · simp at hA
    · by_cases hp : p = code.length
      · simp [hp] at hA
        rw [hp, hA]
      · simp [hp] at hA

theorem c9_witness :
    descent (("A".toList).length - 0 + 1) ("A".toList) 0 (.mk [] []) ≠ .timeout ∧
    descent (("A".toList).length + 1) ("A".toList) 0 (.mk [] []) =
      .ok (.mk "A".toList []) ("A".toList).length :=
  ⟨(c9_descent_terminates "A".toList 0 (.mk [] []) (.mk "A".toList []) (by decide)).1,
   (c9_descent_terminates "A".toList 0 (.mk [] []) (.mk "A".toList []) (by decide)).2
     (by decide)⟩

/-- C1: every constituent token accepted by `analyzeConstituent` renders
back to exactly itself, and whenever the rendered form of the built
`KRCode` differs from the source token the decode fails with
RoundTripMismatch instead of returning a value. -/
theorem c1_round_trip (w : List Char) (kr : KRCode) :
    ((analyzeConstituent w).1 = .ok kr → kr.render = some w) ∧
    (∀ r, (analyzeConstituentCore w).1 = .ok kr → kr.render = some r → r ≠ w →
      (analyzeConstituent w).1 = .error .roundTripMismatch) := by
  constructor
  · intro h
    exact (analyzeConstituent_ok w kr h).2
  · intro r hcore hr hne
    unfold analyzeConstituent
    rcases hc : analyzeConstituentCore w with ⟨res, log⟩
    rw [hc] at hcore
    cases res with
    | error e => simp at hcore
    | ok kr2 =>
      simp at hcore
      subst hcore
      have hwr : w ≠ r := fun hwr => hne hwr.symm
      simp [hr, hwr]

theorem c1_witness :
    (KRCode.mk "x".toList [.mk "NOUN".toList []] []).render = some ("x/NOUN".toList) :=
  (c1_round_trip ("x/NOUN".toList) (KRCode.mk "x".toList [.mk "NOUN".toList []] [])).1
    (by decide)

/-- C2: every `KRCode` produced by a successful `analyzeConstituent`
run satisfies `0 ≤ len(krNodes) − len(kepzos) ≤ 1` (Python integer
subtraction). -/
theorem c2_chain_invariant (w : List Char) (kr : KRCode)
    (h : (analyzeConstituent w).1 = .ok kr) :
    0 ≤ (kr.krNodes.length : Int) - (kr.kepzos.length : Int) ∧
    (kr.krNodes.length : Int) - (kr.kepzos.length : Int) ≤ 1 := by
  have hr := (analyzeConstituent_ok w kr h).2
  unfold KRCode.render at hr
  by_cases hg : ((kr.krNodes.length : Int) - (kr.kepzos.length : Int) = 0 ∨
      (kr.krNodes.length : Int) - (kr.kepzos.length : Int) = 1)
  · rcases hg with h1 | h1 <;> constructor <;> omega
  · rw [if_neg hg] at hr
    exact absurd hr (by simp)

theorem c2_witness :
    0 ≤ ((KRCode.mk "x".toList [.mk [] []] [[.mk "NOUN".toList []]]).krNodes.length : Int) -
        ((KRCode.mk "x".toList [.mk [] []] [[.mk "NOUN".toList []]]).kepzos.length : Int) ∧
    ((KRCode.mk "x".toList [.mk [] []] [[.mk "NOUN".toList []]]).krNodes.length : Int) -
        ((KRCode.mk "x".toList [.mk [] []] [[.mk "NOUN".toList []]]).kepzos.length : Int) ≤ 1 :=
  c2_chain_invariant ("x/[NOUN]".toList)
    (KRCode.mk "x".toList [.mk [] []] [[.mk "NOUN".toList []]]) (by decide)

/-- C6 counterexample: in `"x</A/B"` the non-last chain position `"A"`
contains no `[`, yet decoding fails with GrammarViolation (the stem
`"x<"` is rejected first), not with MissingDerivationMarker as the
claim states. -/
theorem c6_counterexample :
    ((splitOnChar '/' ("x</A/B".toList)).tail)[0]? = some ("A".toList) ∧
    pyFind '[' ("A".toList) = none ∧
    (0 : Nat) ≠ (splitOnChar '/' ("x</A/B".toList)).tail.length - 1 ∧
    (analyzeConstituent ("x</A/B".toList)).1 = .error .grammarViolation ∧
    (analyzeConstituent ("x</A/B".toList)).1 ≠ .error .missingDerivationMarker := by
  decide

/-- C6 (amended): a token in which some chain position other than the
last contains no `[` never decodes to a `KRCode`; whenever such a
position is actually reached by the position loop, the failure is
MissingDerivationMarker with the `MISSING KEPZO` diagnostic written to
error output; in particular `"x/NOUN/NOUN<CAS<NOM>>"` fails exactly
that way. -/
theorem c6_missing_kepzo :
    (∀ (w part : List Char) (j : Nat) (kr : KRCode),
      ((splitOnChar '/' w).tail)[j]? = some part →
      j ≠ (splitOnChar '/' w).tail.length - 1 →
      pyFind '[' part = none →
      (analyzeConstituent w).1 ≠ .ok kr) ∧
    (∀ (i lastIdx : Nat) (part : List Char), i ≠ lastIdx → pyFind '[' part = none →
      processPart i lastIdx part =
        (.error .missingDerivationMarker, ["MISSING KEPZO: " ++ String.mk part])) ∧
    analyzeConstituent ("x/NOUN/NOUN<CAS<NOM>>".toList) =
      (.error .missingDerivationMarker, ["MISSING KEPZO: NOUN"]) := by
  refine ⟨?_, ?_, by decide⟩
  · intro w part j kr hj hlast hfind habs
    obtain ⟨hcore, _⟩ := analyzeConstituent_ok w kr habs
    obtain ⟨_, log, hp⟩ := core_ok w kr hcore
    obtain ⟨ng, lg, hpp⟩ := processParts_ok_all _ _ _ _ _ _ hp j part hj
    rw [Nat.zero_add] at hpp
    rw [processPart, hfind] at hpp
    rw [if_pos hlast] at hpp
    simp at hpp
  · intro i lastIdx part hi hfind
    rw [processPart, hfind]
    rw [if_pos hi]

theorem c6_witness :
    processPart 0 1 ("NOUN".toList) =
      (.error .missingDerivationMarker, ["MISSING KEPZO: NOUN"]) := by
  have h := c6_missing_kepzo.2.1 0 1 ("NOUN".toList) (by decide) (by decide)
  simpa using h

/-- C5 counterexample: in `"x/A/[B]/C"` the chain position at index 1
has an empty main-category part (it starts with `[`), yet decoding
fails with MissingDerivationMarker (position 0 `"A"` lacks its required
decorator and is processed first), not with GrammarViolation as the
claim states. -/
theorem c5_counterexample :
    ((splitOnChar '/' ("x/A/[B]/C".toList)).tail)[1]? = some ("[B]".toList) ∧
    ("[B]".toList).head? = some '[' ∧
    (analyzeConstituent ("x/A/[B]/C".toList)).1 = .error .missingDerivationMarker ∧
    (analyzeConstituent ("x/A/[B]/C".toList)).1 ≠ .error .grammarViolation := by
  decide

/-- C5 (amended): an empty main-category part before `[` is accepted at
the first chain position (`"x/[NOUN]"` parses successfully); whenever a
position `i ≠ 0` whose main-category part is empty is actually reached
by the position loop, the failure is GrammarViolation with the
subcategorization diagnostic written; and a token with such an empty
part at any position `j ≥ 1` never decodes to a `KRCode`. -/
theorem c5_first_position :
    ((analyzeConstituent ("x/[NOUN]".toList)).1 =
      .ok ⟨"x".toList, [.mk [] []], [[.mk "NOUN".toList []]]⟩) ∧
    (∀ (i lastIdx : Nat) (part : List Char), i ≠ 0 → part.head? = some '[' →
      processPart i lastIdx part = (.error .grammarViolation,
        ["SUBCATEGORIZATION (empty main category) IS ONLY ALLOWED AT THE FIRST POSITION: "
          ++ String.mk part])) ∧
    (∀ (w part : List Char) (j : Nat) (kr : KRCode), 1 ≤ j →
      ((splitOnChar '/' w).tail)[j]? = some part → part.head? = some '[' →
      (analyzeConstituent w).1 ≠ .ok kr) := by
  refine ⟨by decide, ?_, ?_⟩
  · intro i lastIdx part hi hhead
    rcases part with _ | ⟨c, rest⟩
    · simp at hhead
    · simp at hhead
      subst hhead
      have h0 : pyFind '[' ('[' :: rest) = some 0 := by simp [pyFind]
      rw [processPart, h0]
      simp only [processPartAt]
      simp [hi]
  · intro w part j kr hj hjget hhead habs
    obtain ⟨hcore, _⟩ := analyzeConstituent_ok w kr habs
    obtain ⟨_, log, hp⟩ := core_ok w kr hcore
    obtain ⟨ng, lg, hpp⟩ := processParts_ok_all _ _ _ _ _ _ hp j part hjget
    rw [Nat.zero_add] at hpp
    rcases part with _ | ⟨c, rest⟩
    · simp at hhead
    · simp at hhead
      subst hhead
      rw [processPart] at hpp
      have h0 : pyFind '[' ('[' :: rest) = some 0 := by simp [pyFind]
      rw [h0] at hpp
      have hj0 : j ≠ 0 := by omega
      simp only [processPartAt] at hpp
      simp [hj0] at hpp

theorem c5_witness :
    processPart 1 1 ("[B]".toList) = (.error .grammarViolation,
      ["SUBCATEGORIZATION (empty main category) IS ONLY ALLOWED AT THE FIRST POSITION: [B]"]) := by
  have h := c5_first_position.2.1 1 1 ("[B]".toList) (by decide) (by decide)
  simpa using h

/-- C10: a token whose stem segment contains `{` but does not end with
`}` is never decoded to a `KRCode`: the brace-delimited ambiguity
marker is accepted only when the closing `}` is the stem's last
character. -/
theorem c10_brace_needs_closing (w : List Char) (kr : KRCode)
    (hbrace : ((splitOnChar '/' w).headD []).contains '{' = true)
    (hlast : ((splitOnChar '/' w).headD []).getLast? ≠ some '}') :
    (analyzeConstituent w).1 ≠ .ok kr := by
  intro habs
  obtain ⟨hcore, _⟩ := analyzeConstituent_ok w kr habs
  obtain ⟨hstem, _⟩ := core_ok w kr hcore
  rw [stemPhase] at hstem
  rcases hp : pyFind '{' ((splitOnChar '/' w).headD []) with _ | p
  · rw [pyFind_none_iff] at hp
    rw [hbrace] at hp
    exact Bool.noConfusion hp
  · rw [hp] at hstem
    split_ifs at hstem <;> simp_all

theorem c10_witness : (analyzeConstituent ("a\x7bb/X".toList)).1 ≠ .ok ⟨[], [], []⟩ :=
  c10_brace_needs_closing ("a\x7bb/X".toList) ⟨[], [], []⟩ (by decide) (by decide)

/-! ### Dictionary lemmas for claim C8 -/

theorem dlookup_dinsert_self : ∀ (d : List (String × AttrVal)) (k : String) (v : AttrVal),
    dlookup (dinsert d k v) k = some v := by
  intro d k v
  induction d with
  | nil => simp [dinsert, dlookup]
  | cons hd tl ih =>
    obtain ⟨k2, v2⟩ := hd
    by_cases hk : k2 = k
    · simp [dinsert, hk, dlookup]
    · simp [dinsert, hk, dlookup, ih]

theorem dlookup_dinsert_ne : ∀ (d : List (String × AttrVal)) (k k2 : String) (v : AttrVal),
    k2 ≠ k → dlookup (dinsert d k v) k2 = dlookup d k2 := by
  intro d k k2 v hne
  induction d with
  | nil => simp [dinsert, dlookup, Ne.symm hne]
  | cons hd tl ih =>
    obtain ⟨k3, v3⟩ := hd
    by_cases hk : k3 = k
    · simp [dinsert, hk, dlookup, Ne.symm hne]
    · by_cases hk2 : k3 = k2
      · simp [dinsert, hk, dlookup, hk2, hne]
      · simp [dinsert, hk, dlookup, hk2, ih]

theorem dinsert_eq_self : ∀ (d : List (String × AttrVal)) (k : String) (v : AttrVal),
    dlookup d k = some v → dinsert d k v = d := by
  intro d k v h
  induction d with
  | nil => simp [dlookup] at h
  | cons hd tl ih =>
    obtain ⟨k2, v2⟩ := hd
    by_cases hk : k2 = k
    · simp [dlookup, hk] at h
      simp [dinsert, hk, h]
    · simp [dlookup, hk] at h
      simp [dinsert, hk, ih h]

theorem addDefault_of_present (d : List (String × AttrVal)) (k : String) (v : AttrVal)
    (h : dlookup d k ≠ none) : addDefault d k v = d := by
  rw [addDefault, if_neg h]

theorem dlookup_addDefault_ne (d : List (String × AttrVal)) (k k2 : String) (v : AttrVal)
    (hne : k2 ≠ k) : dlookup (addDefault d k v) k2 = dlookup d k2 := by
  rw [addDefault]
  split_ifs with h
  · exact dlookup_dinsert_ne _ _ _ _ hne
  · rfl

theorem dlookup_addDefault_self (d : List (String × AttrVal)) (k : String) (v : AttrVal) :
    dlookup (addDefault d k v) k ≠ none := by
  rw [addDefault]
  split_ifs with h
  · rw [dlookup_dinsert_self]
    simp
  · exact h

theorem dlookup_addDefault_pres (d : List (String × AttrVal)) (k k2 : String) (v v2 : AttrVal)
    (h : dlookup d k2 = some v2) : dlookup (addDefault d k v) k2 = some v2 := by
  by_cases hk : k2 = k
  · subst hk
    rw [addDefault, if_neg (by simp [h])]
    exact h
  · rw [dlookup_addDefault_ne _ _ _ _ hk]
    exact h

theorem dlookup_applyCat_other (catv : AttrVal) (d : List (String × AttrVal)) (k : String)
    (h1 : k ≠ "CAS") (h2 : k ≠ "NUM") (h3 : k ≠ "ANP") (h4 : k ≠ "DEF") (h5 : k ≠ "POSS") :
    dlookup (applyCatDefaults catv d) k = dlookup d k := by
  have hnoun : dlookup (applyNounDefaults catv d) k = dlookup d k := by
    rw [applyNounDefaults]
    split_ifs with hn
    · rw [dlookup_addDefault_ne _ _ _ _ h5, dlookup_addDefault_ne _ _ _ _ h4,
        dlookup_addDefault_ne _ _ _ _ h3, dlookup_addDefault_ne _ _ _ _ h2,
        dlookup_addDefault_ne _ _ _ _ h1]
    · rfl
  rw [applyCatDefaults]
  split_ifs with ha
  · rw [dlookup_addDefault_ne _ _ _ _ h1, hnoun]
  · exact hnoun

theorem dlookup_applyCat_pres (catv : AttrVal) (d : List (String × AttrVal)) (k : String)
    (v : AttrVal) (h : dlookup d k = some v) :
    dlookup (applyCatDefaults catv d) k = some v := by
  have hnoun : dlookup (applyNounDefaults catv d) k = some v := by
    rw [applyNounDefaults]
    split_ifs with hn
    · exact dlookup_addDefault_pres _ _ _ _ _ (dlookup_addDefault_pres _ _ _ _ _
        (dlookup_addDefault_pres _ _ _ _ _ (dlookup_addDefault_pres _ _ _ _ _
          (dlookup_addDefault_pres _ _ _ _ _ h))))
    · exact h
  rw [applyCatDefaults]
  split_ifs with ha
  · exact dlookup_addDefault_pres _ _ _ _ _ hnoun
  · exact hnoun

theorem applyCat_noun_defaults (d : List (String × AttrVal)) :
    dlookup (applyCatDefaults (.str "NOUN") d) "CAS" ≠ none ∧
    dlookup (applyCatDefaults (.str "NOUN") d) "NUM" ≠ none ∧
    dlookup (applyCatDefaults (.str "NOUN") d) "ANP" ≠ none ∧
    dlookup (applyCatDefaults (.str "NOUN") d) "DEF" ≠ none ∧
    dlookup (applyCatDefaults (.str "NOUN") d) "POSS" ≠ none := by
  rw [applyCatDefaults, if_neg (by decide), applyNounDefaults, if_pos rfl]
  refine ⟨?_, ?_, ?_, ?_, ?_⟩
  · rw [dlookup_addDefault_ne _ _ _ _ (by decide), dlookup_addDefault_ne _ _ _ _ (by decide),
      dlookup_addDefault_ne _ _ _ _ (by decide), dlookup_addDefault_ne _ _ _ _ (by decide)]
    exact dlookup_addDefault_self _ _ _
  · rw [dlookup_addDefault_ne _ _ _ _ (by decide), dlookup_addDefault_ne _ _ _ _ (by decide),
      dlookup_addDefault_ne _ _ _ _ (by decide)]
    exact dlookup_addDefault_self _ _ _
  · rw [dlookup_addDefault_ne _ _ _ _ (by decide), dlookup_addDefault_ne _ _ _ _ (by decide)]
    exact dlookup_addDefault_self _ _ _
  · rw [dlookup_addDefault_ne _ _ _ _ (by decide)]
    exact dlookup_addDefault_self _ _ _
  · exact dlookup_addDefault_self _ _ _

theorem applyCat_adj_default (d : List (String × AttrVal)) :
    dlookup (applyCatDefaults (.str "ADJ") d) "CAS" ≠ none := by
  rw [applyCatDefaults, if_pos rfl]
  exact dlookup_addDefault_self _ _ _

theorem applyCat_noop (catv : AttrVal) (e : List (String × AttrVal))
    (hN : catv = .str "NOUN" → dlookup e "CAS" ≠ none ∧ dlookup e "NUM" ≠ none ∧
      dlookup e "ANP" ≠ none ∧ dlookup e "DEF" ≠ none ∧ dlookup e "POSS" ≠ none)
    (hA : catv = .str "ADJ" → dlookup e "CAS" ≠ none) :
    applyCatDefaults catv e = e := by
  rw [applyCatDefaults]
  by_cases ha : catv = .str "ADJ"
  · have hn : catv ≠ .str "NOUN" := by rw [ha]; decide
    rw [if_pos ha, applyNounDefaults, if_neg hn, addDefault_of_present _ _ _ (hA ha)]
  · rw [if_neg ha, applyNounDefaults]
    by_cases hn : catv = .str "NOUN"
    · obtain ⟨c1, c2, c3, c4, c5⟩ := hN hn
      rw [if_pos hn, addDefault_of_present _ _ _ c1, addDefault_of_present _ _ _ c2,
        addDefault_of_present _ _ _ c3, addDefault_of_present _ _ _ c4,
        addDefault_of_present _ _ _ c5]
    · rw [if_neg hn]

theorem fill_eq_src_none (d : List (String × AttrVal)) (catv : AttrVal)
    (hc : dlookup d "CAT" = some catv) (hs : dlookup d "SRC" = none) :
    fill_def_values d = some (applyCatDefaults catv d) := by
  rw [fill_def_values, hc]
  dsimp only
  split <;> simp_all

theorem fill_eq_src_some (d : List (String × AttrVal)) (catv : AttrVal)
    (src stem stem2 : List (String × AttrVal))
    (hc : dlookup d "CAT" = some catv) (hs : dlookup d "SRC" = some (.dict src))
    (ht : dlookup src "STEM" = some (.dict stem)) (hf : fill_def_values stem = some stem2) :
    fill_def_values d = some (dinsert (applyCatDefaults catv d) "SRC"
      (.dict (dinsert src "STEM" (.dict stem2)))) := by
  rw [fill_def_values, hc]
  dsimp only
  split <;> simp_all
  split <;> simp_all

/-- Inversion for a successful `fill_def_values` run. -/
theorem fill_some_inv (d e : List (String × AttrVal)) (h : fill_def_values d = some e) :
    ∃ catv, dlookup d "CAT" = some catv ∧
      ((dlookup d "SRC" = none ∧ e = applyCatDefaults catv d) ∨
       (∃ src stem stem2, dlookup d "SRC" = some (.dict src) ∧
         dlookup src "STEM" = some (.dict stem) ∧ fill_def_values stem = some stem2 ∧
         e = dinsert (applyCatDefaults catv d) "SRC"
           (.dict (dinsert src "STEM" (.dict stem2))))) := by
  rw [fill_def_values] at h
  split at h
  · exact Option.noConfusion h
  · rename_i catv hcat
    split at h
    · rename_i hsrc
      exact ⟨catv, hcat, .inl ⟨hsrc, by simpa using h.symm⟩⟩
    · exact Option.noConfusion h
    · exact Option.noConfusion h
    · rename_i src hsrc
      split at h
      · exact Option.noConfusion h
      · exact Option.noConfusion h
      · exact Option.noConfusion h
      · rename_i stem hstm
        split at h
        · exact Option.noConfusion h
        · rename_i stem2 hfs
          exact ⟨catv, hcat, .inr ⟨src, stem, stem2, hsrc, hstm, hfs, by simpa using h.symm⟩⟩

theorem fill_ok_idem : ∀ (n : Nat) (d e : List (String × AttrVal)), sizeOf d < n →
    fill_def_values d = some e → fill_def_values e = some e := by
  intro n
  induction n with
  | zero => intro d e hs h; omega
  | succ n ih =>
    intro d e hs h
    obtain ⟨catv, hc, hrest⟩ := fill_some_inv d e h
    rcases hrest with ⟨hsrc, rfl⟩ | ⟨src, stem, stem2, hsrc, hstm, hfs, rfl⟩
    · have hCAT : dlookup (applyCatDefaults catv d) "CAT" = some catv := by
        rw [dlookup_applyCat_other _ _ _ (by decide) (by decide) (by decide) (by decide)
          (by decide)]
        exact hc
      have hSRC : dlookup (applyCatDefaults catv d) "SRC" = none := by
        rw [dlookup_applyCat_other _ _ _ (by decide) (by decide) (by decide) (by decide)
          (by decide)]
        exact hsrc
      rw [fill_eq_src_none _ catv hCAT hSRC]
      congr 1
      apply applyCat_noop
      · intro hn
        subst hn
        exact applyCat_noun_defaults d
      · intro ha
        subst ha
        exact applyCat_adj_default d
    · have hsz : sizeOf stem < n := by
        have b1 := sizeOf_dlookup d "SRC" _ hsrc
        have b2 := sizeOf_dlookup src "STEM" _ hstm
        simp at b1 b2
        omega
      have hidem := ih stem stem2 hsz hfs
      have hCAT : dlookup (dinsert (applyCatDefaults catv d) "SRC"
          (.dict (dinsert src "STEM" (.dict stem2)))) "CAT" = some catv := by
        rw [dlookup_dinsert_ne _ _ _ _ (by decide),
          dlookup_applyCat_other _ _ _ (by decide) (by decide) (by decide) (by decide)
            (by decide)]
        exact hc
      have hSRC2 : dlookup (dinsert (applyCatDefaults catv d) "SRC"
          (.dict (dinsert src "STEM" (.dict stem2)))) "SRC" =
          some (.dict (dinsert src "STEM" (.dict stem2))) :=
        dlookup_dinsert_self _ _ _
      have hSTM2 : dlookup (dinsert src "STEM" (.dict stem2)) "STEM" =
          some (.dict stem2) := dlookup_dinsert_self _ _ _
      rw [fill_eq_src_some _ catv _ _ _ hCAT hSRC2 hSTM2 hidem]
      have hnoop : applyCatDefaults catv (dinsert (applyCatDefaults catv d) "SRC"
          (.dict (dinsert src "STEM" (.dict stem2)))) =
          dinsert (applyCatDefaults catv d) "SRC"
            (.dict (dinsert src "STEM" (.dict stem2))) := by
        apply applyCat_noop
        · intro hn
          subst hn
          have hk := applyCat_noun_defaults d
          refine ⟨?_, ?_, ?_, ?_, ?_⟩
          · rw [dlookup_dinsert_ne _ _ _ _ (by decide)]; exact hk.1
          · rw [dlookup_dinsert_ne _ _ _ _ (by decide)]; exact hk.2.1
          · rw [dlookup_dinsert_ne _ _ _ _ (by decide)]; exact hk.2.2.1
          · rw [dlookup_dinsert_ne _ _ _ _ (by decide)]; exact hk.2.2.2.1
          · rw [dlookup_dinsert_ne _ _ _ _ (by decide)]; exact hk.2.2.2.2
        · intro ha
          subst ha
          rw [dlookup_dinsert_ne _ _ _ _ (by decide)]
          exact applyCat_adj_default d
      rw [hnoop]
      rw [dinsert_eq_self _ _ _ hSTM2]
      rw [dinsert_eq_self _ _ _ hSRC2]

/-- C8: default filling is idempotent — a second `fill_def_values` pass
over any successful result returns it unchanged (stated via `bind`, so
it also covers inputs on which filling raises) — and defaults never
replace a value already present (every non-`SRC` key keeps its value
through a successful pass). -/
theorem c8_fill_idempotent (d : List (String × AttrVal)) :
    (fill_def_values d).bind fill_def_values = fill_def_values d ∧
    (∀ e k v, fill_def_values d = some e → k ≠ "SRC" → dlookup d k = some v →
      dlookup e k = some v) := by
  constructor
  · rcases hf : fill_def_values d with _ | e
    · rfl
    · simp only [Option.bind]
      exact fill_ok_idem (sizeOf d + 1) d e (by omega) hf
  · intro e k v hf hk hv
    obtain ⟨catv, hc, hrest⟩ := fill_some_inv d e hf
    rcases hrest with ⟨hsrc, rfl⟩ | ⟨src, stem, stem2, hsrc, hstm, hfs, rfl⟩
    · exact dlookup_applyCat_pres _ _ _ _ hv
    · rw [dlookup_dinsert_ne _ _ _ _ hk]
      exact dlookup_applyCat_pres _ _ _ _ hv

theorem c8_witness :
    dlookup [("CAT", .str "NOUN"), ("FOO", .str "x"), ("CAS", .str "NOM"),
      ("NUM", .str "SING"), ("ANP", .str "0"), ("DEF", .str "0"), ("POSS", .str "0")]
      "FOO" = some (.str "x") :=
  (c8_fill_idempotent [("CAT", .str "NOUN"), ("FOO", .str "x")]).2
    [("CAT", .str "NOUN"), ("FOO", .str "x"), ("CAS", .str "NOM"), ("NUM", .str "SING"),
     ("ANP", .str "0"), ("DEF", .str "0"), ("POSS", .str "0")]
    "FOO" (.str "x")
    (by simp [fill_def_values, dlookup, dinsert, applyCatDefaults, applyNounDefaults,
      addDefault])
    (by decide) (by decide)

/-- C3: Scenario B — decoding `"alapszó/FN[IGE]/IGE<MOD<FELT>>"`
succeeds with the stated chain nodes and decorator groups, the rendered
form equals the input, and the final attribute dictionary is exactly
the stated nested dictionary. -/
theorem c3_scenario_b :
    (analyzeConstituent ("alapszó/FN[IGE]/IGE<MOD<FELT>>".toList)).1 =
      .ok ⟨"alapszó".toList,
           [.mk "FN".toList [], .mk "IGE".toList [.mk "MOD".toList [.mk "FELT".toList []]]],
           [[.mk "IGE".toList []]]⟩ ∧
    (KRCode.mk "alapszó".toList
       [.mk "FN".toList [], .mk "IGE".toList [.mk "MOD".toList [.mk "FELT".toList []]]]
       [[.mk "IGE".toList []]]).render = some ("alapszó/FN[IGE]/IGE<MOD<FELT>>".toList) ∧
    kr_to_dictionary ("alapszó/FN[IGE]/IGE<MOD<FELT>>".toList) =
      some [("CAT", .str "IGE"), ("MOD", .str "FELT"),
            ("SRC", .dict [("DERIV", .dict [("CAT", .str "IGE")]),
                           ("STEM", .dict [("CAT", .str "FN")])])] := by
  refine ⟨by decide, by decide, ?_⟩
  have h : (analyze "alapszó/FN[IGE]/IGE<MOD<FELT>>".toList).1 =
      .ok [⟨"alapszó".toList,
            [.mk "FN".toList [], .mk "IGE".toList [.mk "MOD".toList [.mk "FELT".toList []]]],
            [[.mk "IGE".toList []]]⟩] := by decide
  rw [kr_to_dictionary, h]
  simp [fill_def_values, dlookup, dinsert, applyCatDefaults, applyNounDefaults, addDefault,
    node_dictionary, node_dict_base, Node.children, Node.value]

/-- The two ways `stemPhase` can succeed: no brace at all (stem kept,
no trailing `}`), or a first `{` at index `p` with the stem ending in
`}` and the stem truncated to `p`. -/
theorem stemPhase_ok_shape (stem r : List Char) (h : stemPhase stem = .ok r) :
    (pyFind '{' stem = none ∧ stem.getLast? ≠ some '}' ∧ r = stem) ∨
    (∃ p, pyFind '{' stem = some p ∧ stem.getLast? = some '}' ∧ r = stem.take p) := by
  rw [stemPhase] at h
  by_cases h1 : '<' ∈ stem <;> simp [h1] at h
  by_cases h2 : '>' ∈ stem <;> simp [h2] at h
  by_cases h3 : '[' ∈ stem <;> simp [h3] at h
  by_cases h4 : ']' ∈ stem <;> simp [h4] at h
  rcases hp : pyFind '{' stem with _ | p <;> rw [hp] at h
  · by_cases hg : stem.getLast? = some '}' <;> simp [hg] at h
    first
    | exact .inl ⟨rfl, hg, h.symm⟩
    | exact .inl ⟨rfl, hg, h⟩
  · by_cases hg : stem.getLast? = some '}' <;> simp [hg] at h
    by_cases ht : '}' ∈ stem.take p <;> simp [ht] at h
    first
    | exact .inr ⟨p, rfl, hg, h.symm⟩
    | exact .inr ⟨p, rfl, hg, h⟩

/-- C4 counterexample: the token `"a{X}/NOUN"` satisfies the claim's
hypothesis (its stem segment ends with `}` and contains a matching
`{`), yet decoding does not succeed: it fails with RoundTripMismatch,
because the rendered form omits the stripped marker. -/
theorem c4_counterexample :
    ("a\x7bX\x7d".toList).getLast? = some '}' ∧
    ("a\x7bX\x7d".toList).contains '{' = true ∧
    (splitOnChar '/' ("a\x7bX\x7d/NOUN".toList)).headD [] = "a\x7bX\x7d".toList ∧
    (analyzeConstituent ("a\x7bX\x7d/NOUN".toList)).1 = .error .roundTripMismatch := by
  decide

/-- C4 (amended): for a stem segment that ends with `}` and contains a
`{` (with no `}` before it), the stem phase succeeds and discards the
marker, returning the substring before the `{`; but the whole token is
never decoded to a `KRCode` — the renderer omits the marker, so the
final round-trip check always rejects such tokens. -/
theorem c4_ambiguity_marker (stem w : List Char) (p : Nat) (kr : KRCode) :
    (stem.contains '<' = false → stem.contains '>' = false → stem.contains '[' = false →
      stem.contains ']' = false → pyFind '{' stem = some p → stem.getLast? = some '}' →
      (stem.take p).contains '}' = false → stemPhase stem = .ok (stem.take p)) ∧
    (((splitOnChar '/' w).headD []).getLast? = some '}' →
      (analyzeConstituent w).1 ≠ .ok kr) := by
  constructor
  · intro h1 h2 h3 h4 hp hlast h5
    have h1m : ¬('<' ∈ stem) := by simpa using h1
    have h2m : ¬('>' ∈ stem) := by simpa using h2
    have h3m : ¬('[' ∈ stem) := by simpa using h3
    have h4m : ¬(']' ∈ stem) := by simpa using h4
    have h5m : ¬('}' ∈ stem.take p) := by simpa using h5
    rw [stemPhase]
    simp [h1m, h2m, h3m, h4m, hp, hlast, h5m]
  · intro hlast habs
    obtain ⟨hcore, hrender⟩ := analyzeConstituent_ok w kr habs
    obtain ⟨hstem, _⟩ := core_ok w kr hcore
    rcases stemPhase_ok_shape _ _ hstem with ⟨_, hg, _⟩ | ⟨q, hq, _, hr⟩
    · exact hg hlast
    · have hqlt : q < ((splitOnChar '/' w).headD []).length := pyFind_lt hq
      have hqchar : ((splitOnChar '/' w).headD [])[q]? = some '{' := pyFind_getElem hq
      obtain ⟨rest, hpre⟩ := splitOnChar_head_prefix '/' w
      have hW1 : w[q]? = some '{' := by
        conv_lhs => rw [hpre]
        rw [List.getElem?_append, if_pos hqlt]
        exact hqchar
      have hklen : kr.stem.length = q := by
        rw [hr, List.length_take]
        omega
      have hW2 : w[q]? = some '/' := by
        rw [KRCode.render] at hrender
        split_ifs at hrender with hguard
        have hw : w = kr.stem ++ '/' :: kr.renderBody := by
          injection hrender with hrv
          exact hrv.symm
        rw [hw, List.getElem?_append_right (by omega)]
        simp [hklen]
      rw [hW1] at hW2
      exact absurd hW2 (by decide)

theorem c4_witness :
    stemPhase ("a\x7bX\x7d".toList) = .ok (("a\x7bX\x7d".toList).take 1) ∧
    (analyzeConstituent ("a\x7bX\x7d/NOUN".toList)).1 ≠ .ok ⟨[], [], []⟩ :=
  ⟨(c4_ambiguity_marker ("a\x7bX\x7d".toList) [] 1 ⟨[], [], []⟩).1 (by decide) (by decide)
      (by decide) (by decide) (by decide) (by decide) (by decide),
   (c4_ambiguity_marker [] ("a\x7bX\x7d/NOUN".toList) 0 ⟨[], [], []⟩).2 (by decide)⟩

theorem analyzeKR_ok_no_log (code : List Char) (node : Node)
    (h : (analyzeKR code).1 = .ok node) : analyzeKR code = (.ok node, []) := by
  unfold analyzeKR at h ⊢
  rcases hd : descent (code.length + 1) code 0 (.mk [] []) with _ | e | ⟨n, p⟩ <;>
    rw [hd] at h
  · simp at h
  · simp at h
  · by_cases hp : p = code.length
    · simp [hp] at h ⊢
      exact h
    · simp [hp] at h

/-- C7: the decorator scanner's IN state accumulates exactly the
characters A–Z, 0–9, underscore, hyphen, `<`, `>` into the buffer; `]`
closes the bracket, hands the buffer to the tree parser and appends the
resulting node to the current group; any other character is a
GrammarViolation; and ending the scan while still IN is a
GrammarViolation. -/
theorem c7_scanner_in_state (c : Char) (rest buf : List Char) (group : List Node) :
    (kepzoCharOk c = true →
      scanKepzos (c :: rest) .IN buf group = scanKepzos rest .IN (buf ++ [c]) group) ∧
    (∀ node, (analyzeKR buf).1 = .ok node →
      scanKepzos (']' :: rest) .IN buf group = scanKepzos rest .OUT [] (group ++ [node])) ∧
    (c ≠ ']' → kepzoCharOk c = false →
      scanKepzos (c :: rest) .IN buf group = (.error .grammarViolation, [])) ∧
    scanKepzos [] .IN buf group = (.error .grammarViolation, []) := by
  refine ⟨?_, ?_, ?_, by simp [scanKepzos]⟩
  · intro hok
    have hbra : c ≠ '[' := by
      rintro rfl
      exact absurd hok (by decide)
    have hket : c ≠ ']' := by
      rintro rfl
      exact absurd hok (by decide)
    rw [scanKepzos]
    simp [hbra, hket, hok]
  · intro node hnode
    have h2 := analyzeKR_ok_no_log buf node hnode
    rw [scanKepzos, h2]
    rcases hs : scanKepzos rest .OUT [] (group ++ [node]) with ⟨res, log2⟩
    simp [hs]
  · intro hne hnok
    rw [scanKepzos]
    by_cases hbra : c = '['
    · simp [hbra]
    · simp [hbra, hne, hnok]

theorem c7_witness :
    scanKepzos ('A' :: [']']) .IN [] [] = scanKepzos [']'] .IN ['A'] [] :=
  (c7_scanner_in_state 'A' [']'] [] []).1 (by decide)
